import Mathlib

/-!
Verification of the tracker coordination core of the libtorrent fork
(dns_manager.cc, connection_manager.cc / tracker.cc, tracker_list.cc).

The C++ sources are shallowly embedded: each C++ function relevant to the
claims becomes an executable Lean function over explicit state.  32-bit
unsigned arithmetic is modelled as `Nat` with explicit `% u32` where the
C++ computes in `uint32_t`.  Fallible code (throwing `internal_error` /
`input_error`) returns `Option`/`Except`.
-/

namespace LibTorrent

/-- `2^32`, the modulus of `uint32_t` arithmetic. -/
def u32 : Nat := 4294967296

/-- `Tracker::enabled_status_t` tri-state (tracker.h). -/
inductive EnabledStatus where
  | on : EnabledStatus
  | off : EnabledStatus
  | undefined : EnabledStatus
deriving DecidableEq, Repr

/-- `Tracker::Type` (tracker.h): the protocol variant of a tracker. -/
inductive TrackerType where
  | TRACKER_HTTP : TrackerType
  | TRACKER_UDP : TrackerType
  | TRACKER_DHT : TrackerType
  | TRACKER_NONE : TrackerType
deriving DecidableEq, Repr

/-- Per-tracker state, following the member initialisers of
`Tracker::Tracker` (tracker.cc).  All `uint32_t` members are `Nat`s kept
below `u32` by the operations.  `tid` stands in for the object identity of
the C++ `Tracker*` pointer (used by `TrackerList::find`).  The fields
`variant_usable`, `can_request_state` and `is_busy` model the
variant-defined virtual predicates `is_usable()`, `can_request_state()`
and `is_busy()`, whose implementations live in the protocol variants
(external collaborators per the spec, section 4.3). -/
structure Tracker where
  tid : Nat := 0
  flags : Nat := 0
  group : Nat := 0
  url : List Char := []
  normal_interval : Nat := 1800
  min_interval : Nat := 600
  latest_event : Nat := 0
  latest_new_peers : Nat := 0
  latest_sum_peers : Nat := 0
  success_time_last : Nat := 0
  success_counter : Nat := 0
  failed_time_last : Nat := 0
  failed_counter : Nat := 0
  scrape_time_last : Nat := 0
  scrape_counter : Nat := 0
  scrape_complete : Nat := 0
  scrape_incomplete : Nat := 0
  scrape_downloaded : Nat := 0
  request_time_last : Nat := 0
  request_counter : Nat := 0
  enabled_status : EnabledStatus := EnabledStatus.undefined
  ttype : TrackerType := TrackerType.TRACKER_NONE
  variant_usable : Bool := true
  can_request_state : Bool := true
  is_busy : Bool := false
deriving DecidableEq, Repr

instance : Inhabited Tracker := ⟨{}⟩

/-- `Tracker::success_time_next` (tracker.cc): `0` when
`m_success_counter == 0`, else `m_success_time_last + m_normal_interval`
in `uint32_t` arithmetic. -/
def Tracker.success_time_next (t : Tracker) : Nat :=
  if t.success_counter = 0 then 0
  else (t.success_time_last + t.normal_interval) % u32

/-- `Tracker::failed_time_next` (tracker.cc): `0` when
`m_failed_counter == 0`, else
`m_failed_time_last + (5 << min(m_failed_counter - 1, 6))` in `uint32_t`
arithmetic. -/
def Tracker.failed_time_next (t : Tracker) : Nat :=
  if t.failed_counter = 0 then 0
  else (t.failed_time_last + (5 <<< min (t.failed_counter - 1) 6)) % u32

/-- `Tracker::clear_stats` (tracker.cc): zeroes the latest-peer counts and
the success/failed/scrape counters, touching nothing else. -/
def Tracker.clear_stats (t : Tracker) : Tracker :=
  { t with
    latest_new_peers := 0
    latest_sum_peers := 0
    success_counter := 0
    failed_counter := 0
    scrape_counter := 0 }

/-- `Tracker::inc_request_counter` (tracker.cc).  `now` is
`cachedTime.seconds()`.  The counter is first decayed by the elapsed
seconds (computed in `uint32_t`, hence the wrap-around term), clamped at
zero via `std::min`, then incremented; `m_request_time_last` is set to
`now`.  The returned `Bool` is `true` exactly when the function throws
`internal_error` (`m_request_counter >= 10`), which in the C++ happens
after the mutations. -/
def Tracker.inc_request_counter (now : Nat) (t : Tracker) : Tracker × Bool :=
  let elapsed := (now + u32 - t.request_time_last) % u32
  let c := (t.request_counter - min t.request_counter elapsed + 1) % u32
  ({ t with request_counter := c, request_time_last := now }, decide (10 ≤ c))

/-- Runs `inc_request_counter` at each time of `times` in order, stopping
at the first call that throws.  Returns the final tracker state and
whether any call threw the fatal `internal_error`. -/
def run_requests : List Nat → Tracker → Tracker × Bool
  | [], t => (t, false)
  | n :: ns, t =>
    let r := t.inc_request_counter n
    if r.2 then (r.1, true) else run_requests ns r.1

/-- Error kinds of the embedded code: `internal` models
`torrent::internal_error`, `input` models `torrent::input_error`
(surfaced to the caller as invalid-argument). -/
inductive CError where
  | internal : CError
  | input : CError
deriving DecidableEq, Repr

/-- Index of the last occurrence of `c`, i.e. `std::string::rfind`. -/
def rfindIdx (c : Char) : List Char → Option Nat
  | [] => Option.none
  | x :: xs =>
    match rfindIdx c xs with
    | Option.some i => Option.some (i + 1)
    | Option.none => if x = c then Option.some 0 else Option.none

/-- Whether `pat` occurs at position `i` of `s`. -/
def occursAt (pat s : List Char) (i : Nat) : Bool :=
  (s.drop i).take pat.length = pat

/-- Scans positions `from0, from0+1, ...` (at most `fuel` of them) for an
occurrence of `pat` in `s`. -/
def findFromAux (pat s : List Char) : Nat → Nat → Option Nat
  | _, 0 => Option.none
  | from0, fuel + 1 =>
    if occursAt pat s from0 then Option.some from0
    else findFromAux pat s (from0 + 1) fuel

/-- First position `≥ from0` at which `pat` occurs in `s`, i.e.
`std::string::find(pat, from0)` (`Option.none` plays `npos`). -/
def findFromIdx (pat s : List Char) (from0 : Nat) : Option Nat :=
  if s.length < from0 then Option.none
  else findFromAux pat s from0 (s.length + 1 - from0)

/-- `Tracker::scrape_url_from` (tracker.cc): `rfind('/')`; if there is no
`/` or `find("/announce", delim_slash) != delim_slash`, throw
`internal_error`; otherwise `replace(delim_slash, 9, "/scrape")`. -/
def Tracker.scrape_url_from (url : List Char) : Except CError (List Char) :=
  match rfindIdx '/' url with
  | Option.none => Except.error CError.internal
  | Option.some delim_slash =>
    if findFromIdx ("/announce".toList) url delim_slash = Option.some delim_slash then
      Except.ok (url.take delim_slash ++ "/scrape".toList ++ url.drop (delim_slash + 9))
    else
      Except.error CError.internal

/-! ## DNS manager (dns_manager.cc) -/

/-- `Cache::Key` (dns_manager.cc): `(host, family, socktype)`. -/
structure DnsKey where
  host : String
  family : Int
  socktype : Int
deriving DecidableEq, Repr

/-- `Cache::Key::operator<` (dns_manager.cc): lexicographic on host, then
family, then socktype. -/
def DnsKey.lt (a b : DnsKey) : Bool :=
  if a.host ≠ b.host then decide (a.host < b.host)
  else if a.family ≠ b.family then decide (a.family < b.family)
  else decide (a.socktype < b.socktype)

/-- `std::map` key equivalence induced by `Cache::Key::operator<`:
neither key is less than the other. -/
def DnsKey.equiv (a b : DnsKey) : Bool :=
  !DnsKey.lt a b && !DnsKey.lt b a

/-- `Cache::Value` (dns_manager.cc): the stored `sa_unique_ptr` (null
modelled as `Option.none`; addresses are opaque `Nat`s) and the error
code. -/
structure DnsVal where
  sa : Option Nat
  error_code : Int
deriving DecidableEq, Repr

/-- The `std::map<Key, Value>` of `Cache`, as an association list looked
up through the comparator-induced equivalence. -/
def DnsCache := List (DnsKey × DnsVal)

/-- `Cache::retrieve` (dns_manager.cc): the map lookup; `Option.some`
when the key is present. -/
def DnsCache.retrieve (c : DnsCache) (k : DnsKey) : Option DnsVal :=
  match c.find? (fun e => DnsKey.equiv e.1 k) with
  | Option.some e => Option.some e.2
  | Option.none => Option.none

/-- `Cache::add` (dns_manager.cc): `std::map::insert`, which leaves an
already-present entry unchanged, and returns the stored value (whose
`m_sa.get()` the caller passes to the callback). -/
def DnsCache.add (c : DnsCache) (k : DnsKey) (v : DnsVal) : DnsCache × DnsVal :=
  match c.find? (fun e => DnsKey.equiv e.1 k) with
  | Option.some e => (c, e.2)
  | Option.none => ((k, v) :: c, v)

/-- `DnsManager::Implementation` state (dns_manager.cc):
`network_active` is `m_networkManager.network_active_get()`, `enabled` is
`m_enabled` (default `true`), `cache` is `m_cache`. -/
structure DnsState where
  network_active : Bool
  enabled : Bool := true
  cache : DnsCache := []

/-- `Implementation::is_on` (dns_manager.cc). -/
def DnsState.is_on (st : DnsState) : Bool :=
  st.network_active && st.enabled

/-- Result of one `DnsManager::resolve` call: the returned `bool` (the
C++ returns the local variable `skip`), the callback invocation — the
`(sockaddr*, error_code)` pair passed to `cb`, or `Option.none` when the
callback was not invoked — and the state afterwards. -/
structure DnsResult where
  returned : Bool
  cb_invocation : Option (Option Nat × Int)
  state : DnsState

/-- `DnsManager::resolve` (dns_manager.cc).  `live` models the outcome of
the underlying query (`resolve_host_system` or `resolve_host_custom`,
whose network effect is external): it is consulted only on a cache miss.
When `is_on()`: on a cache hit the cached value is delivered; on a miss
the live result is inserted via `Cache::add` and the stored address plus
the local `error_code` are delivered; `skip` is set to `false`.
Otherwise nothing happens and `skip` stays `true`.  The function returns
`skip`. -/
def DnsManager.resolve (st : DnsState) (k : DnsKey) (live : DnsVal) : DnsResult :=
  if st.is_on then
    match st.cache.retrieve k with
    | Option.some v =>
      { returned := false, cb_invocation := Option.some (v.sa, v.error_code), state := st }
    | Option.none =>
      let r := st.cache.add k live
      { returned := false
        cb_invocation := Option.some (r.2.sa, live.error_code)
        state := { st with cache := r.1 } }
  else
    { returned := true, cb_invocation := Option.none, state := st }

/-- `DnsManager::cache_clear` (dns_manager.cc). -/
def DnsManager.cache_clear (st : DnsState) : DnsState :=
  { st with cache := [] }

/-! ## Tracker list (tracker_list.cc) -/

/-- The Connection Manager's per-protocol enablement bitset
(`protocol_enabled_get`), an external collaborator consulted by
`Tracker::is_protocol_enabled`. -/
structure ProtocolEnabled where
  http : Bool
  udp : Bool
  dht : Bool
deriving DecidableEq, Repr

/-- `Tracker::is_protocol_enabled` (tracker.cc): dispatches the variant
to the Connection Manager's enablement bits; `TRACKER_NONE` is `false`. -/
def Tracker.is_protocol_enabled (pe : ProtocolEnabled) : TrackerType → Bool
  | TrackerType.TRACKER_HTTP => pe.http
  | TrackerType.TRACKER_UDP => pe.udp
  | TrackerType.TRACKER_DHT => pe.dht
  | TrackerType.TRACKER_NONE => false

/-- `TrackerList::is_usable` (tracker_list.cc): resolves the enabled
tri-state of the tracker against the global protocol enablement and the
variant-level `is_usable()`. -/
def TrackerList.is_usable (pe : ProtocolEnabled) (t : Tracker) : Bool :=
  match t.enabled_status with
  | EnabledStatus.on => t.variant_usable
  | EnabledStatus.off => false
  | EnabledStatus.undefined => Tracker.is_protocol_enabled pe t.ttype && t.variant_usable

/-- The `can_request` lambda of `TrackerList::find_next_to_request`
(tracker_list.cc): `is_usable(tracker) && tracker->can_request_state()`. -/
def TrackerList.can_request (pe : ProtocolEnabled) (t : Tracker) : Bool :=
  TrackerList.is_usable pe t && t.can_request_state

/-- The inner `better_candidate` loop of
`TrackerList::find_next_to_request` (tracker_list.cc), carrying the
current candidate `cand` through the remainder of the list.  A
non-requestable entry is skipped; a failed entry with strictly smaller
`failed_time_next` replaces the candidate and the scan continues; at the
first non-failed entry the scan unconditionally stops, the candidate
replaced first when its `success_time_next` is strictly smaller than the
candidate's `failed_time_next`. -/
def TrackerList.findBetterLoop (pe : ProtocolEnabled) (cand : Tracker) :
    List Tracker → Tracker
  | [] => cand
  | b :: rest =>
    if !TrackerList.can_request pe b then
      TrackerList.findBetterLoop pe cand rest
    else if b.failed_counter ≠ 0 then
      if b.failed_time_next < cand.failed_time_next then
        TrackerList.findBetterLoop pe b rest
      else
        TrackerList.findBetterLoop pe cand rest
    else
      if b.success_time_next < cand.failed_time_next then b else cand

/-- `TrackerList::find_next_to_request` (tracker_list.cc), applied to the
suffix of the list starting at the caller-supplied iterator.
`Option.none` models returning `end()`. -/
def TrackerList.find_next_to_request (pe : ProtocolEnabled) :
    List Tracker → Option Tracker
  | [] => Option.none
  | t :: rest =>
    if TrackerList.can_request pe t then
      if t.failed_counter ≠ 0 then
        Option.some (TrackerList.findBetterLoop pe t rest)
      else
        Option.some t
    else
      TrackerList.find_next_to_request pe rest

/-- `TrackerList::insert` (tracker_list.cc): sets the tracker's group and
inserts it at `end_group(group)`.  `end_group` is declared in the header
(not under the sources here); modelled from the spec: it is the position
immediately after the last entry of the group, i.e. `begin_group(group+1)`
— the first position whose entry has `group' ≥ group + 1` — which is the
end of the list when no such entry exists ("appended if the group does
not yet exist"). -/
def TrackerList.insert (g : Nat) (t : Tracker) : List Tracker → List Tracker
  | [] => [{ t with group := g }]
  | x :: xs =>
    if x.group ≤ g then x :: TrackerList.insert g t xs
    else { t with group := g } :: x :: xs

/-- Index of `begin_group(g)` (tracker_list.cc):
`find_if(begin(), end(), less_equal(g, group))`, the first position whose
entry has `g ≤ group`; equals `l.length` when there is none (`end()`). -/
def TrackerList.begin_group_idx (g : Nat) (l : List Tracker) : Nat :=
  (l.takeWhile (fun e => e.group < g)).length

/-- `std::swap`' of the list entries at positions `i` and `j`. -/
def listSwap (l : List Tracker) (i j : Nat) : List Tracker :=
  (l.set i (l.getD j default)).set j (l.getD i default)

/-- `TrackerList::promote` (tracker_list.cc): swap the entry at `i` with
the first entry of its group.  `Option.none` models the
`internal_error` thrown when `begin_group` returns `end()`; on success
the new position of the promoted tracker is returned with the list. -/
def TrackerList.promote (i : Nat) (l : List Tracker) : Option (Nat × List Tracker) :=
  let g := (l.getD i default).group
  let first := TrackerList.begin_group_idx g l
  if first = l.length then Option.none
  else Option.some (first, listSwap l i first)

/-- Case split of `cycle_group` on the suffix starting at
`begin_group(group)` (`pre` is the prefix before it, `l` the whole
list returned unchanged when there is nothing to rotate). -/
def cycleRun (l : List Tracker) (g : Nat) (pre : List Tracker) :
    List Tracker → List Tracker
  | [] => l
  | x :: xs =>
    if x.group ≠ g then l
    else pre ++ (xs.takeWhile (fun e => e.group = g) ++ [x])
             ++ xs.dropWhile (fun e => e.group = g)

/-- `TrackerList::cycle_group` (tracker_list.cc): starting at
`begin_group(group)`, if that entry's group is not `group` (or it is
`end()`) do nothing; otherwise rotate the consecutive run of entries of
that group left by one (the first becomes last), which is what the
pairwise `iter_swap` loop computes. -/
def TrackerList.cycle_group (g : Nat) (l : List Tracker) : List Tracker :=
  cycleRun l g (l.takeWhile (fun e => e.group < g))
    (l.dropWhile (fun e => e.group < g))

/-- Insertion of an address into a sorted list, ascending. -/
def insertSortedNat (x : Nat) : List Nat → List Nat
  | [] => [x]
  | y :: ys => if x ≤ y then x :: y :: ys else y :: insertSortedNat x ys

/-- Modelled from the spec: `AddressList::sort` ("sort ... the address
list"; the container lives outside these sources).  Addresses are opaque
`Nat`s; sorting is ascending. -/
def sortAddrs : List Nat → List Nat
  | [] => []
  | x :: xs => insertSortedNat x (sortAddrs xs)

/-- Helper of `uniqConsec`: drops elements equal to the previous kept
element. -/
def uniqConsecAux (prev : Nat) : List Nat → List Nat
  | [] => []
  | y :: ys => if y = prev then uniqConsecAux prev ys else y :: uniqConsecAux y ys

/-- `l->erase(std::unique(l->begin(), l->end()), l->end())`
(tracker_list.cc): removes consecutive duplicates. -/
def uniqConsec : List Nat → List Nat
  | [] => []
  | x :: xs => x :: uniqConsecAux x xs

/-- `TrackerList::receive_success` (tracker_list.cc).  `tb` is the
identity of the tracker pointer handed back by the protocol
implementation; `addrs` the raw `AddressList`; `slot_ret` the value
returned by the user's `m_slot_success` callback; `now` is
`cachedTime.seconds()`.  `Option.none` models the `internal_error` paths
(tracker not found or still busy, and the `promote` failure).  Otherwise
the tracker is promoted to the front of its group and its success fields
are updated in place. -/
def TrackerList.receive_success (now slot_ret : Nat) (addrs : List Nat)
    (tb : Nat) (l : List Tracker) : Option (List Tracker) :=
  match l.findIdx? (fun t => t.tid = tb) with
  | Option.none => Option.none
  | Option.some i =>
    if (l.getD i default).is_busy then Option.none
    else
      match TrackerList.promote i l with
      | Option.none => Option.none
      | Option.some (j, l2) =>
        let peers := uniqConsec (sortAddrs addrs)
        Option.some (l2.set j
          { l2.getD j default with
            success_time_last := now
            success_counter := ((l2.getD j default).success_counter + 1) % u32
            failed_counter := 0
            latest_sum_peers := peers.length
            latest_new_peers := slot_ret })

/-- `TrackerList::receive_failed` (tracker_list.cc).  `Option.none`
models the `internal_error` path (tracker not found or still busy); on
success the updated list is returned together with the `(tracker, msg)`
arguments passed to the user's `m_slot_failed` callback, which the code
invokes exactly once, after the mutations. -/
def TrackerList.receive_failed (now : Nat) (tb : Nat) (msg : List Char)
    (l : List Tracker) : Option (List Tracker × (Nat × List Char)) :=
  match l.findIdx? (fun t => t.tid = tb) with
  | Option.none => Option.none
  | Option.some i =>
    if (l.getD i default).is_busy then Option.none
    else
      Option.some (l.set i
        { l.getD i default with
          failed_time_last := now
          failed_counter := ((l.getD i default).failed_counter + 1) % u32 },
        (tb, msg))

/-- `TrackerList::size_group` (tracker_list.cc):
`!empty() ? back()->group() + 1 : 0`. -/
def TrackerList.size_group (l : List Tracker) : Nat :=
  match l.getLast? with
  | Option.none => 0
  | Option.some t => t.group + 1

/-- The sequence of group numbers along the list. -/
def groupsOf (l : List Tracker) : List Nat :=
  l.map Tracker.group

/-! ## Theorems -/

/-- **C10.** `clear_stats` zeroes `latest_new_peers`, `latest_sum_peers`,
`success_counter`, `failed_counter` and `scrape_counter` and leaves
`success_time_last`, `failed_time_last`, `scrape_time_last`,
`request_time_last`, `request_counter`, `group`, `url`, `flags` and
`enabled_status` unchanged; consequently `failed_time_next()` and
`success_time_next()` are both `0` immediately afterwards. -/
theorem c10_clear_stats (t : Tracker) :
    t.clear_stats.latest_new_peers = 0 ∧
    t.clear_stats.latest_sum_peers = 0 ∧
    t.clear_stats.success_counter = 0 ∧
    t.clear_stats.failed_counter = 0 ∧
    t.clear_stats.scrape_counter = 0 ∧
    t.clear_stats.success_time_last = t.success_time_last ∧
    t.clear_stats.failed_time_last = t.failed_time_last ∧
    t.clear_stats.scrape_time_last = t.scrape_time_last ∧
    t.clear_stats.request_time_last = t.request_time_last ∧
    t.clear_stats.request_counter = t.request_counter ∧
    t.clear_stats.group = t.group ∧
    t.clear_stats.url = t.url ∧
    t.clear_stats.flags = t.flags ∧
    t.clear_stats.enabled_status = t.enabled_status ∧
    t.clear_stats.failed_time_next = 0 ∧
    t.clear_stats.success_time_next = 0 := by
  refine ⟨rfl, rfl, rfl, rfl, rfl, rfl, rfl, rfl, rfl, rfl, rfl, rfl, rfl, rfl, ?_, ?_⟩ <;>
    simp [Tracker.clear_stats, Tracker.failed_time_next, Tracker.success_time_next]

/-- **C6.** `failed_time_next()` is `0` when `failed_counter == 0` and
equals `failed_time_last + 5 * 2^min(failed_counter - 1, 6)` otherwise
(absent `uint32_t` wrap-around of the sum), so the retry delay over
consecutive failures is 5, 10, 20, 40, 80, 160, 320 seconds and stays
capped at 320 (`5 * 2^6`) from the seventh failure on. -/
theorem c6_failed_time_next (t : Tracker) :
    (t.failed_counter = 0 → t.failed_time_next = 0) ∧
    (0 < t.failed_counter → t.failed_time_last + 320 < u32 →
      t.failed_time_next = t.failed_time_last + 5 * 2 ^ min (t.failed_counter - 1) 6 ∧
      (7 ≤ t.failed_counter → t.failed_time_next = t.failed_time_last + 320)) := by
  constructor
  · intro h
    simp [Tracker.failed_time_next, h]
  · intro hpos hlt
    have hne : t.failed_counter ≠ 0 := Nat.pos_iff_ne_zero.mp hpos
    have hshift : (5 <<< min (t.failed_counter - 1) 6) = 5 * 2 ^ min (t.failed_counter - 1) 6 :=
      Nat.shiftLeft_eq 5 _
    have hle : 5 * 2 ^ min (t.failed_counter - 1) 6 ≤ 320 := by
      have : (2:Nat) ^ min (t.failed_counter - 1) 6 ≤ 2 ^ 6 :=
        Nat.pow_le_pow_right (by norm_num) (Nat.min_le_right _ _)
      omega
    have hmod : (t.failed_time_last + (5 <<< min (t.failed_counter - 1) 6)) % u32
        = t.failed_time_last + 5 * 2 ^ min (t.failed_counter - 1) 6 := by
      rw [hshift]
      exact Nat.mod_eq_of_lt (by omega)
    refine ⟨?_, ?_⟩
    · simp [Tracker.failed_time_next, hne, hmod]
    · intro h7
      have hmin : min (t.failed_counter - 1) 6 = 6 := by omega
      rw [hmin] at hmod
      simp only [Tracker.failed_time_next]
      rw [if_neg hne, hmin, hmod]
      norm_num

/-- Witness for C6 at the spec's concrete example: `failed_counter = 3`,
`failed_time_last = 100` gives `failed_time_next = 120`. -/
theorem c6_failed_time_next_witness :
    Tracker.failed_time_next { failed_counter := 3, failed_time_last := 100 } = 120 := by
  have h := ((c6_failed_time_next { failed_counter := 3, failed_time_last := 100 }).2
    (by decide) (by norm_num [u32])).1
  simpa using h

/-- **C5 (counterexample).** Ten `inc_request_counter` calls within a
10-second window need not fire the fatal error: from a fresh tracker
(constructed at second 0), calls at seconds 0,1,...,9 — ten calls within
ten seconds — never throw, and the counter ends at 1, because the
counter decays by one for each elapsed second. -/
theorem c5_counterexample :
    (run_requests [0, 1, 2, 3, 4, 5, 6, 7, 8, 9] {}).2 = false ∧
    (run_requests [0, 1, 2, 3, 4, 5, 6, 7, 8, 9] {}).1.request_counter = 1 := by
  decide

/-- **C5 (amended).** `inc_request_counter` first decreases
`request_counter` by the seconds elapsed since `request_time_last`
(clamped so the counter never goes below zero), then increments it by one
and sets `request_time_last` to the current time, and the fatal internal
error fires exactly when the resulting counter reaches 10 (so the counter
never exceeds 10); in particular ten calls with no intervening clock
advance — e.g. ten calls during second 5 on a fresh tracker — fire the
fatal error. -/
theorem c5_inc_request_counter :
    (∀ (now : Nat) (t : Tracker),
      t.request_time_last ≤ now → now < u32 → t.request_counter ≤ 9 →
      (t.inc_request_counter now).1.request_counter
          = t.request_counter - min t.request_counter (now - t.request_time_last) + 1 ∧
      (t.inc_request_counter now).1.request_time_last = now ∧
      (t.inc_request_counter now).1.request_counter ≤ 10 ∧
      ((t.inc_request_counter now).2 = true ↔
        (t.inc_request_counter now).1.request_counter = 10)) ∧
    (run_requests [5, 5, 5, 5, 5, 5, 5, 5, 5, 5] { request_time_last := 5 }).2 = true := by
  constructor
  · intro now t hle hnow hc
    have hlast : t.request_time_last < u32 := Nat.lt_of_le_of_lt hle hnow
    have helapsed : (now + u32 - t.request_time_last) % u32 = now - t.request_time_last := by
      have h1 : now + u32 - t.request_time_last = u32 + (now - t.request_time_last) := by omega
      rw [h1, Nat.add_mod_left]
      exact Nat.mod_eq_of_lt (by omega)
    have hsmall : t.request_counter - min t.request_counter (now - t.request_time_last) + 1 < u32 := by
      have : t.request_counter - min t.request_counter (now - t.request_time_last)
          ≤ t.request_counter := Nat.sub_le _ _
      simp only [u32]; omega
    have hcounter : (t.inc_request_counter now).1.request_counter
        = t.request_counter - min t.request_counter (now - t.request_time_last) + 1 := by
      simp only [Tracker.inc_request_counter, helapsed]
      exact Nat.mod_eq_of_lt hsmall
    refine ⟨hcounter, rfl, ?_, ?_⟩
    · rw [hcounter]
      have : t.request_counter - min t.request_counter (now - t.request_time_last)
          ≤ t.request_counter := Nat.sub_le _ _
      omega
    · rw [hcounter]
      have hthrow : (t.inc_request_counter now).2
          = decide (10 ≤ t.request_counter - min t.request_counter (now - t.request_time_last) + 1) := by
        simp only [Tracker.inc_request_counter, helapsed, Nat.mod_eq_of_lt hsmall]
      rw [hthrow]
      have : t.request_counter - min t.request_counter (now - t.request_time_last)
          ≤ t.request_counter := Nat.sub_le _ _
      constructor
      · intro h
        have := of_decide_eq_true h
        omega
      · intro h
        exact decide_eq_true (by omega)
  · decide

/-- Witness for the universally quantified part of C5 (amended): one call
at second 7 from a tracker with `request_counter = 4` and
`request_time_last = 5` decays by 2, increments to 3, and does not
throw. -/
theorem c5_inc_request_counter_witness :
    (Tracker.inc_request_counter 7
        { request_counter := 4, request_time_last := 5 }).1.request_counter = 4 - min 4 (7 - 5) + 1 ∧
    (Tracker.inc_request_counter 7
        { request_counter := 4, request_time_last := 5 }).1.request_time_last = 7 := by
  have h := c5_inc_request_counter.1 7 { request_counter := 4, request_time_last := 5 }
    (by decide) (by norm_num [u32]) (by decide)
  exact ⟨h.1, h.2.1⟩

theorem rfindIdx_lt_length {c : Char} {s : List Char} {d : Nat}
    (h : rfindIdx c s = Option.some d) : d < s.length := by
  induction s generalizing d with
  | nil => simp [rfindIdx] at h
  | cons x xs ih =>
    simp only [rfindIdx] at h
    cases hx : rfindIdx c xs with
    | some i =>
      rw [hx] at h
      cases h
      simpa using Nat.succ_lt_succ (ih hx)
    | none =>
      rw [hx] at h
      by_cases hc : x = c
      · simp [hc] at h
        simp [← h]
      · simp [hc] at h

theorem findFromAux_ge {pat s : List Char} {from0 fuel i : Nat}
    (h : findFromAux pat s from0 fuel = Option.some i) : from0 ≤ i := by
  induction fuel generalizing from0 with
  | zero => simp [findFromAux] at h
  | succ n ih =>
    simp only [findFromAux] at h
    by_cases hocc : occursAt pat s from0
    · simp [hocc] at h
      omega
    · simp [hocc] at h
      have := ih h
      omega

theorem findFromIdx_self_iff {pat s : List Char} {d : Nat} (hd : d ≤ s.length) :
    (findFromIdx pat s d = Option.some d ↔ occursAt pat s d = true) := by
  have hnl : ¬ s.length < d := Nat.not_lt.mpr hd
  have hfuel : s.length + 1 - d = (s.length - d) + 1 := by omega
  simp only [findFromIdx, hnl, if_false, hfuel, findFromAux]
  constructor
  · intro h
    by_cases hocc : occursAt pat s d
    · exact hocc
    · simp [hocc] at h
      have := findFromAux_ge h
      omega
  · intro h
    simp [h]

/-- **C2 (counterexample).** `scrape_url_from` does not require the last
`/` to be followed by exactly `announce` plus an optional query suffix:
`"http://x/announcements"` is accepted and rewritten to
`"http://x/scrapements"`.  And a URL of another shape fails with the
`internal` error kind (`internal_error`), not the invalid-argument kind
(`input_error`). -/
theorem c2_counterexample :
    Tracker.scrape_url_from "http://x/announcements".toList
        = Except.ok "http://x/scrapements".toList ∧
    Tracker.scrape_url_from "http://x/path".toList = Except.error CError.internal :=
  ⟨rfl, rfl⟩

/-- **C2 (amended).** For every URL whose last `/` is immediately
followed by the nine characters `/announce` — any remaining suffix, in
particular a query string, preserved — `scrape_url_from` returns the URL
with those nine characters replaced by `/scrape`; for every URL of any
other shape (no `/`, or the last `/` not starting `/announce`) it fails
with an internal error. -/
theorem c2_scrape_url_from (url : List Char) :
    (rfindIdx '/' url = Option.none →
      Tracker.scrape_url_from url = Except.error CError.internal) ∧
    (∀ d, rfindIdx '/' url = Option.some d →
      (occursAt "/announce".toList url d = true →
        Tracker.scrape_url_from url
          = Except.ok (url.take d ++ "/scrape".toList ++ url.drop (d + 9))) ∧
      (occursAt "/announce".toList url d = false →
        Tracker.scrape_url_from url = Except.error CError.internal)) := by
  constructor
  · intro h
    simp [Tracker.scrape_url_from, h]
  · intro d hd
    have hdle : d ≤ url.length := Nat.le_of_lt (rfindIdx_lt_length hd)
    constructor
    · intro hocc
      have hfind : findFromIdx ("/announce".toList) url d = Option.some d :=
        (findFromIdx_self_iff hdle).mpr hocc
      simp only [Tracker.scrape_url_from, hd]
      rw [if_pos hfind]
    · intro hocc
      have hfind : ¬ findFromIdx ("/announce".toList) url d = Option.some d := by
        intro hcon
        rw [findFromIdx_self_iff hdle] at hcon
        rw [hcon] at hocc
        exact Bool.noConfusion hocc
      simp only [Tracker.scrape_url_from, hd]
      rw [if_neg hfind]

/-- Witness for C2 (amended): query strings are preserved,
`"http://x/announce?foo=1"` maps to `"http://x/scrape?foo=1"`. -/
theorem c2_scrape_url_from_witness :
    Tracker.scrape_url_from "http://x/announce?foo=1".toList
        = Except.ok "http://x/scrape?foo=1".toList := by
  have h := ((c2_scrape_url_from ("http://x/announce?foo=1".toList)).2 8 rfl).1 rfl
  exact h.trans rfl

/-- **C1 (code evaluation).** The return value of `DnsManager::resolve`
is inverted with respect to its own declaration comment ("return false if
the manager didn't/won't try to resolve", dns_manager.h): the function
returns the local variable `skip`, which is `true` exactly when the
subsystem is disabled or the network inactive (callback not invoked), and
`false` when the callback was invoked — the opposite of the claim.  Here:
with the network inactive, `resolve` returns `true` and does not invoke
the callback; with the subsystem on, it invokes the callback once and
returns `false`. -/
theorem c1_resolve_returns_skip :
    (DnsManager.resolve { network_active := false }
        { host := "example.com", family := 2, socktype := 1 }
        { sa := Option.some 7, error_code := 0 }).returned = true ∧
    (DnsManager.resolve { network_active := false }
        { host := "example.com", family := 2, socktype := 1 }
        { sa := Option.some 7, error_code := 0 }).cb_invocation = Option.none ∧
    (DnsManager.resolve { network_active := true }
        { host := "example.com", family := 2, socktype := 1 }
        { sa := Option.some 7, error_code := 0 }).returned = false ∧
    (DnsManager.resolve { network_active := true }
        { host := "example.com", family := 2, socktype := 1 }
        { sa := Option.some 7, error_code := 0 }).cb_invocation
        = Option.some (Option.some 7, 0) :=
  ⟨rfl, rfl, rfl, rfl⟩

theorem DnsKey.equiv_self (k : DnsKey) : DnsKey.equiv k k = true := by
  simp [DnsKey.equiv, DnsKey.lt]

/-- **C8.** With the subsystem enabled and the network active, two
`resolve` calls with the same `(host, family, socket_type)` key and no
intervening `cache_clear` deliver the same outcome: some value `v` —
success or failure — is delivered to the first call's callback, is in the
cache after the first call, and is delivered unchanged to the second
call's callback without querying (the second call's live-query outcome
`live2` is arbitrary and unused), with both calls returning the same
`bool`. -/
theorem c8_resolve_cached (st : DnsState) (k : DnsKey) (live1 live2 : DnsVal)
    (hA : st.network_active = true) (hE : st.enabled = true) :
    ∃ v : DnsVal,
      (DnsManager.resolve st k live1).cb_invocation = Option.some (v.sa, v.error_code) ∧
      (DnsManager.resolve st k live1).state.cache.retrieve k = Option.some v ∧
      (DnsManager.resolve (DnsManager.resolve st k live1).state k live2).cb_invocation
          = Option.some (v.sa, v.error_code) ∧
      (DnsManager.resolve (DnsManager.resolve st k live1).state k live2).returned
          = (DnsManager.resolve st k live1).returned := by
  have hon : st.is_on = true := by simp [DnsState.is_on, hA, hE]
  cases hc : st.cache.retrieve k with
  | some v =>
    refine ⟨v, ?_, ?_, ?_, ?_⟩ <;>
      simp [DnsManager.resolve, hon, hc]
  | none =>
    have hfind : st.cache.find? (fun e => DnsKey.equiv e.1 k) = Option.none := by
      revert hc
      unfold DnsCache.retrieve
      cases st.cache.find? (fun e => DnsKey.equiv e.1 k) <;> simp
    have hadd : st.cache.add k live1 = ((k, live1) :: st.cache, live1) := by
      simp [DnsCache.add, hfind]
    have hretr : DnsCache.retrieve ((k, live1) :: st.cache) k = Option.some live1 := by
      simp [DnsCache.retrieve, List.find?, DnsKey.equiv_self]
    refine ⟨live1, ?_, ?_, ?_, ?_⟩ <;>
      simp [DnsManager.resolve, DnsState.is_on, hA, hE, hon, hc, hadd, hretr]

/-- Witness for C8 at a concrete state: empty cache, a failing live
lookup (nonzero error code, null address) is delivered to both calls and
cached in between. -/
theorem c8_resolve_cached_witness :
    ∃ v : DnsVal,
      (DnsManager.resolve { network_active := true }
          { host := "tracker.example", family := 2, socktype := 1 }
          { sa := Option.none, error_code := 11 }).cb_invocation
          = Option.some (v.sa, v.error_code) ∧
      (DnsManager.resolve { network_active := true }
          { host := "tracker.example", family := 2, socktype := 1 }
          { sa := Option.none, error_code := 11 }).state.cache.retrieve
          { host := "tracker.example", family := 2, socktype := 1 } = Option.some v ∧
      (DnsManager.resolve
          (DnsManager.resolve { network_active := true }
              { host := "tracker.example", family := 2, socktype := 1 }
              { sa := Option.none, error_code := 11 }).state
          { host := "tracker.example", family := 2, socktype := 1 }
          { sa := Option.some 9, error_code := 0 }).cb_invocation
          = Option.some (v.sa, v.error_code) ∧
      (DnsManager.resolve
          (DnsManager.resolve { network_active := true }
              { host := "tracker.example", family := 2, socktype := 1 }
              { sa := Option.none, error_code := 11 }).state
          { host := "tracker.example", family := 2, socktype := 1 }
          { sa := Option.some 9, error_code := 0 }).returned
          = (DnsManager.resolve { network_active := true }
              { host := "tracker.example", family := 2, socktype := 1 }
              { sa := Option.none, error_code := 11 }).returned :=
  c8_resolve_cached { network_active := true }
    { host := "tracker.example", family := 2, socktype := 1 }
    { sa := Option.none, error_code := 11 } { sa := Option.some 9, error_code := 0 } rfl rfl

/-- Transcription of the claim's scan, written from the spec's words
("Find-next-to-request", spec section 4.4): entries failing
`is_usable && can_request_state` are skipped without affecting state; a
later eligible entry with `failed_counter > 0` whose `failed_time_next`
is strictly smaller replaces the candidate and the scan continues; the
scan ends at the first eligible clean entry ("the first clean tracker
ends the search"), which replaces the candidate exactly when its
`success_time_next` is strictly smaller than the candidate's
`failed_time_next`. -/
def findNextScanSpec (pe : ProtocolEnabled) (cand : Tracker) :
    List Tracker → Tracker
  | [] => cand
  | b :: rest =>
    if TrackerList.is_usable pe b && b.can_request_state then
      if 0 < b.failed_counter then
        if b.failed_time_next < cand.failed_time_next then
          findNextScanSpec pe b rest
        else
          findNextScanSpec pe cand rest
      else
        if b.success_time_next < cand.failed_time_next then b else cand
    else
      findNextScanSpec pe cand rest

/-- Transcription of the claim's selection policy, written from the
spec's words: advance from the starting position to the first entry for
which `is_usable` and `can_request_state` both hold (the initial
candidate); return it immediately when its `failed_counter` is 0;
otherwise return the outcome of the scan over the rest of the list. -/
def findNextToRequestSpec (pe : ProtocolEnabled) (l : List Tracker) : Option Tracker :=
  match l.dropWhile (fun t => !(TrackerList.is_usable pe t && t.can_request_state)) with
  | [] => Option.none
  | c :: rest =>
    if c.failed_counter = 0 then Option.some c
    else Option.some (findNextScanSpec pe c rest)

theorem findBetterLoop_eq_scanSpec (pe : ProtocolEnabled) (cand : Tracker)
    (l : List Tracker) :
    TrackerList.findBetterLoop pe cand l = findNextScanSpec pe cand l := by
  induction l generalizing cand with
  | nil => rfl
  | cons b rest ih =>
    simp only [TrackerList.findBetterLoop, findNextScanSpec, TrackerList.can_request]
    by_cases hb : (TrackerList.is_usable pe b && b.can_request_state) = true
    · simp only [hb, Bool.not_true, Bool.false_eq_true, if_false, if_true]
      by_cases hf : b.failed_counter = 0
      · rw [if_neg (by simpa using hf), if_neg (by omega : ¬ 0 < b.failed_counter)]
      · rw [if_pos hf, if_pos (Nat.pos_of_ne_zero hf)]
        by_cases hlt : b.failed_time_next < cand.failed_time_next
        · rw [if_pos hlt, if_pos hlt, ih]
        · rw [if_neg hlt, if_neg hlt, ih]
    · have hb' : (TrackerList.is_usable pe b && b.can_request_state) = false :=
        Bool.eq_false_iff.mpr hb
      simp [hb', ih]

/-- **C3.** `find_next_to_request` implements the claimed selection
policy: it advances to the first entry satisfying
`is_usable && can_request_state`, returns it immediately when its
`failed_counter` is 0, and otherwise scans the rest of the list,
replacing the candidate by a later eligible failed entry with strictly
smaller `failed_time_next` (continuing), and stopping the scan at the
first later eligible clean entry, which is selected exactly when its
`success_time_next` is strictly smaller than the candidate's
`failed_time_next`.  The second conjunct checks the spec's concrete
scenario: at `[A: failed, next=120] [B: healthy, next=50] [C: failed,
next=10]` the selection returns `B` — and has stopped scanning at `B`,
for otherwise the eligible `C` with the smaller retry time would have
been preferred. -/
theorem c3_find_next_to_request :
    (∀ (pe : ProtocolEnabled) (l : List Tracker),
      TrackerList.find_next_to_request pe l = findNextToRequestSpec pe l) ∧
    TrackerList.find_next_to_request { http := true, udp := true, dht := true }
      [{ tid := 1, enabled_status := EnabledStatus.on, failed_counter := 1, failed_time_last := 115 },
       { tid := 2, enabled_status := EnabledStatus.on, success_counter := 1,
         success_time_last := 10, normal_interval := 40 },
       { tid := 3, enabled_status := EnabledStatus.on, failed_counter := 1, failed_time_last := 5 }]
      = Option.some
        { tid := 2, enabled_status := EnabledStatus.on, success_counter := 1,
          success_time_last := 10, normal_interval := 40 } := by
  constructor
  · intro pe l
    induction l with
    | nil => rfl
    | cons t rest ih =>
      simp only [TrackerList.find_next_to_request, findNextToRequestSpec,
        TrackerList.can_request, List.dropWhile_cons]
      by_cases ht : (TrackerList.is_usable pe t && t.can_request_state) = true
      · simp only [ht, Bool.not_true, Bool.false_eq_true, if_false, if_true]
        by_cases hf : t.failed_counter = 0
        · simp [hf]
        · simp [hf, findBetterLoop_eq_scanSpec]
      · have ht' : (TrackerList.is_usable pe t && t.can_request_state) = false :=
          Bool.eq_false_iff.mpr ht
        simp only [ht', Bool.not_false, if_true, if_false]
        exact ih
  · decide

theorem findIdx?_start_facts {α : Type} {p : α → Bool} (d : α) :
    ∀ (l : List α) (s i : Nat), List.findIdx? p l s = Option.some i →
      s ≤ i ∧ i - s < l.length ∧ p (l.getD (i - s) d) = true := by
  intro l
  induction l with
  | nil => intro s i h; simp [List.findIdx?] at h
  | cons x xs ih =>
    intro s i h
    rw [List.findIdx?_cons] at h
    by_cases hx : p x = true
    · simp only [hx, if_true] at h
      cases h
      refine ⟨Nat.le_refl _, by simp, ?_⟩
      simp [hx]
    · simp only [hx, if_false] at h
      obtain ⟨h1, h2, h3⟩ := ih (s + 1) i h
      refine ⟨by omega, by simp; omega, ?_⟩
      have hk : i - s = (i - (s + 1)) + 1 := by omega
      rw [hk, List.getD_cons_succ]
      exact h3

theorem findIdx?_some_lt {α : Type} {p : α → Bool} (d : α) {l : List α} {i : Nat}
    (h : List.findIdx? p l = Option.some i) : i < l.length := by
  have h2 := findIdx?_start_facts d l 0 i h
  simpa using h2.2.1

theorem findIdx?_some_getD {α : Type} {p : α → Bool} (d : α) {l : List α} {i : Nat}
    (h : List.findIdx? p l = Option.some i) : p (l.getD i d) = true := by
  simpa using (findIdx?_start_facts d l 0 i h).2.2

theorem getD_set_self {α : Type} {l : List α} {i : Nat} (h : i < l.length) (v d : α) :
    (l.set i v).getD i d = v := by
  rw [List.getD_eq_getElem?_getD, List.getElem?_set_self (by simpa using h)]
  rfl

theorem getD_set_ne {α : Type} {l : List α} {i j : Nat} (h : i ≠ j) (v d : α) :
    (l.set i v).getD j d = l.getD j d := by
  rw [List.getD_eq_getElem?_getD, List.getElem?_set_ne h, ← List.getD_eq_getElem?_getD]

/-- **C9.** For every tracker in the list that is not busy,
`receive_failed` increments `failed_counter` (so it is positive
afterwards), sets `failed_time_last` to the current time, invokes the
failed callback with the tracker and message, and leaves
`success_counter` and all other counters and timestamps of the tracker
unchanged (other entries of the list are untouched as well); when the
tracker is not in the list or still busy, the fatal `internal_error` is
raised instead. -/
theorem c9_receive_failed (now tb : Nat) (msg : List Char) (l : List Tracker) :
    (l.findIdx? (fun t => t.tid = tb) = Option.none →
      TrackerList.receive_failed now tb msg l = Option.none) ∧
    (∀ i, l.findIdx? (fun t => t.tid = tb) = Option.some i →
      ((l.getD i default).is_busy = true →
        TrackerList.receive_failed now tb msg l = Option.none) ∧
      ((l.getD i default).is_busy = false →
        (l.getD i default).failed_counter + 1 < u32 →
        ∃ L, TrackerList.receive_failed now tb msg l = Option.some (L, (tb, msg)) ∧
          (L.getD i default).failed_counter = (l.getD i default).failed_counter + 1 ∧
          0 < (L.getD i default).failed_counter ∧
          (L.getD i default).failed_time_last = now ∧
          (L.getD i default).success_counter = (l.getD i default).success_counter ∧
          (L.getD i default).success_time_last = (l.getD i default).success_time_last ∧
          (L.getD i default).scrape_counter = (l.getD i default).scrape_counter ∧
          (L.getD i default).scrape_time_last = (l.getD i default).scrape_time_last ∧
          (L.getD i default).request_counter = (l.getD i default).request_counter ∧
          (L.getD i default).request_time_last = (l.getD i default).request_time_last ∧
          (L.getD i default).latest_new_peers = (l.getD i default).latest_new_peers ∧
          (L.getD i default).latest_sum_peers = (l.getD i default).latest_sum_peers ∧
          (L.getD i default).group = (l.getD i default).group ∧
          (∀ j, j ≠ i → L.getD j default = l.getD j default))) := by
  constructor
  · intro h
    simp [TrackerList.receive_failed, h]
  · intro i hfind
    have hi : i < l.length := findIdx?_some_lt default hfind
    constructor
    · intro hbusy
      simp only [TrackerList.receive_failed, hfind]
      rw [if_pos hbusy]
    · intro hbusy hovf
      refine ⟨l.set i
        { l.getD i default with
          failed_time_last := now
          failed_counter := ((l.getD i default).failed_counter + 1) % u32 }, ?_, ?_⟩
      · simp only [TrackerList.receive_failed, hfind]
        rw [if_neg (by rw [hbusy]; exact Bool.false_ne_true)]
      · have hmod : ((l.getD i default).failed_counter + 1) % u32
            = (l.getD i default).failed_counter + 1 := Nat.mod_eq_of_lt hovf
        rw [getD_set_self hi]
        refine ⟨by rw [hmod], by rw [hmod]; exact Nat.succ_pos _, rfl, rfl, rfl, rfl,
          rfl, rfl, rfl, rfl, rfl, rfl, ?_⟩
        intro j hj
        exact getD_set_ne (fun h => hj h.symm) _ _

/-- Witness for C9: a singleton list whose tracker (id 4, one prior
success) is not busy; after `receive_failed` its `failed_counter` is 1
and its `success_counter` still 2. -/
theorem c9_receive_failed_witness :
    ∃ L, TrackerList.receive_failed 50 4 "timeout".toList
          [{ tid := 4, success_counter := 2, is_busy := false }]
        = Option.some (L, (4, "timeout".toList)) ∧
      (L.getD 0 default).failed_counter = 1 ∧
      0 < (L.getD 0 default).failed_counter ∧
      (L.getD 0 default).failed_time_last = 50 ∧
      (L.getD 0 default).success_counter = 2 := by
  have h := ((c9_receive_failed 50 4 ("timeout".toList)
      [{ tid := 4, success_counter := 2, is_busy := false }]).2 0 (by decide)).2
      (by decide) (by norm_num [u32])
  obtain ⟨L, h1, h2, h3, h4, h5, _⟩ := h
  exact ⟨L, h1, h2.trans rfl, h3, h4, h5.trans rfl⟩

theorem takeWhile_getD_of_lt {α : Type} (p : α → Bool) (d : α) :
    ∀ (l : List α) (k : Nat), k < (l.takeWhile p).length → p (l.getD k d) = true := by
  intro l
  induction l with
  | nil => intro k hk; simp [List.takeWhile] at hk
  | cons x xs ih =>
    intro k hk
    by_cases hx : p x = true
    · rw [List.takeWhile_cons, if_pos hx] at hk
      cases k with
      | zero => simpa using hx
      | succ k' =>
        rw [List.getD_cons_succ]
        exact ih k' (by simpa using hk)
    · rw [List.takeWhile_cons, if_neg hx] at hk
      simp at hk

theorem takeWhile_length_le_of_not {α : Type} (p : α → Bool) (d : α) :
    ∀ (l : List α) (i : Nat), i < l.length → p (l.getD i d) = false →
      (l.takeWhile p).length ≤ i := by
  intro l
  induction l with
  | nil => intro i hi; simp at hi
  | cons x xs ih =>
    intro i hi hp
    by_cases hx : p x = true
    · cases i with
      | zero => rw [List.getD_cons_zero] at hp; rw [hp] at hx; exact absurd hx (by simp)
      | succ i' =>
        rw [List.takeWhile_cons, if_pos hx]
        have := ih i' (by simpa using hi) (by rwa [List.getD_cons_succ] at hp)
        simpa using Nat.succ_le_succ this
    · rw [List.takeWhile_cons, if_neg hx]
      exact Nat.zero_le _

theorem listSwap_length (l : List Tracker) (i j : Nat) :
    (listSwap l i j).length = l.length := by
  simp [listSwap]

theorem listSwap_getD_snd {l : List Tracker} {i j : Nat}
    (_hi : i < l.length) (hj : j < l.length) :
    (listSwap l i j).getD j default = l.getD i default := by
  unfold listSwap
  rw [getD_set_self (by simpa using hj)]

theorem listSwap_getD_other {l : List Tracker} {i j k : Nat}
    (hki : k ≠ i) (hkj : k ≠ j) (d : Tracker) :
    (listSwap l i j).getD k d = l.getD k d := by
  unfold listSwap
  rw [getD_set_ne (fun h => hkj h.symm), getD_set_ne (fun h => hki h.symm)]

/-- **C7.** For every tracker in the list that is not busy,
`receive_success` promotes it to the first entry of its group (every
earlier entry has a strictly smaller group number), resets its
`failed_counter` to 0, increments its `success_counter`, sets its
`success_time_last` to the current time, sets `latest_sum_peers` to the
size of the sorted-and-deduplicated address list and `latest_new_peers`
to the value returned by the success callback; when the tracker is not in
the list or still busy, the fatal `internal_error` is raised instead. -/
theorem c7_receive_success (now slot_ret : Nat) (addrs : List Nat) (tb : Nat)
    (l : List Tracker) :
    (l.findIdx? (fun t => t.tid = tb) = Option.none →
      TrackerList.receive_success now slot_ret addrs tb l = Option.none) ∧
    (∀ i, l.findIdx? (fun t => t.tid = tb) = Option.some i →
      ((l.getD i default).is_busy = true →
        TrackerList.receive_success now slot_ret addrs tb l = Option.none) ∧
      ((l.getD i default).is_busy = false →
        (l.getD i default).success_counter + 1 < u32 →
        ∃ L, TrackerList.receive_success now slot_ret addrs tb l = Option.some L ∧
          ∃ j, j = TrackerList.begin_group_idx (l.getD i default).group l ∧ j ≤ i ∧
            (L.getD j default).tid = (l.getD i default).tid ∧
            (L.getD j default).group = (l.getD i default).group ∧
            (L.getD j default).failed_counter = 0 ∧
            (L.getD j default).success_counter = (l.getD i default).success_counter + 1 ∧
            (L.getD j default).success_time_last = now ∧
            (L.getD j default).latest_sum_peers = (uniqConsec (sortAddrs addrs)).length ∧
            (L.getD j default).latest_new_peers = slot_ret ∧
            (∀ k, k < j → (L.getD k default).group < (l.getD i default).group))) := by
  constructor
  · intro h
    simp [TrackerList.receive_success, h]
  · intro i hfind
    have hi : i < l.length := findIdx?_some_lt default hfind
    constructor
    · intro hbusy
      simp only [TrackerList.receive_success, hfind]
      rw [if_pos hbusy]
    · intro hbusy hovf
      set g := (l.getD i default).group with hg
      set j := TrackerList.begin_group_idx g l with hj
      have hji : j ≤ i := by
        rw [hj]
        exact takeWhile_length_le_of_not _ default l i hi (by simp [hg])
      have hjlen : j < l.length := Nat.lt_of_le_of_lt hji hi
      have hpromote : TrackerList.promote i l = Option.some (j, listSwap l i j) := by
        simp only [TrackerList.promote]
        rw [← hg, ← hj, if_neg (Nat.ne_of_lt hjlen)]
      have hswap : (listSwap l i j).getD j default = l.getD i default :=
        listSwap_getD_snd hi hjlen
      refine ⟨(listSwap l i j).set j
        { (listSwap l i j).getD j default with
          success_time_last := now
          success_counter := (((listSwap l i j).getD j default).success_counter + 1) % u32
          failed_counter := 0
          latest_sum_peers := (uniqConsec (sortAddrs addrs)).length
          latest_new_peers := slot_ret }, ?_, j, rfl, hji, ?_⟩
      · simp only [TrackerList.receive_success, hfind]
        rw [if_neg (by rw [hbusy]; exact Bool.false_ne_true), hpromote]
      · have hjlen2 : j < (listSwap l i j).length := by rwa [listSwap_length]
        rw [getD_set_self hjlen2, hswap]
        have hmod : ((l.getD i default).success_counter + 1) % u32
            = (l.getD i default).success_counter + 1 := Nat.mod_eq_of_lt hovf
        refine ⟨rfl, rfl, rfl, by rw [hmod], rfl, rfl, rfl, ?_⟩
        intro k hk
        have hkj : k ≠ j := Nat.ne_of_lt hk
        have hki : k ≠ i := Nat.ne_of_lt (Nat.lt_of_lt_of_le hk hji)
        rw [getD_set_ne (fun h => hkj h.symm), listSwap_getD_other hki hkj]
        have hk2 : k < (List.takeWhile (fun e => decide (e.group < g)) l).length := by
          rw [show (List.takeWhile (fun e => decide (e.group < g)) l).length
              = TrackerList.begin_group_idx g l from rfl, ← hj]
          exact hk
        have := takeWhile_getD_of_lt (fun e => decide (e.group < g)) default l k hk2
        simpa using this

/-- Witness for C7: a two-tracker list `[group 0; group 1 (id 9, one
prior failure)]`; `receive_success` promotes tracker 9 to position 1 (the
first entry of group 1), zeroes its `failed_counter`, bumps
`success_counter` to 1, and records 2 peers from the duplicated address
list `[3, 3, 1]`. -/
theorem c7_receive_success_witness :
    ∃ L, TrackerList.receive_success 77 5 [3, 3, 1] 9
        [{ tid := 2, group := 0 }, { tid := 9, group := 1, failed_counter := 4 }]
        = Option.some L ∧
      ∃ j, j = TrackerList.begin_group_idx 1
          [{ tid := 2, group := 0 }, { tid := 9, group := 1, failed_counter := 4 }] ∧
        j ≤ 1 ∧
        (L.getD j default).tid = 9 ∧
        (L.getD j default).group = 1 ∧
        (L.getD j default).failed_counter = 0 ∧
        (L.getD j default).success_counter = 1 ∧
        (L.getD j default).success_time_last = 77 ∧
        (L.getD j default).latest_sum_peers = 2 ∧
        (L.getD j default).latest_new_peers = 5 ∧
        (∀ k, k < j → (L.getD k default).group < 1) := by
  have h := ((c7_receive_success 77 5 [3, 3, 1] 9
      [{ tid := 2, group := 0 }, { tid := 9, group := 1, failed_counter := 4 }]).2 1
      (by decide)).2 (by decide) (by norm_num [u32])
  obtain ⟨L, hL, j, hj, hji, h1, h2, h3, h4, h5, h6, h7, h8⟩ := h
  exact ⟨L, hL, j, hj, hji, h1.trans rfl, h2.trans rfl, h3, h4.trans rfl, h5,
    h6.trans rfl, h7, h8⟩

/-! ### Group-sequence lemmas for the list invariant (C4) -/

/-- The effect of `TrackerList.insert` on the sequence of group numbers:
insertion of `g` after the last entry `≤ g`. -/
def insNat (g : Nat) : List Nat → List Nat
  | [] => [g]
  | x :: xs => if x ≤ g then x :: insNat g xs else g :: x :: xs

/-- `size_group` as a function of the group sequence:
`back + 1` on a nonempty list, `0` on the empty one. -/
def sizeg (gs : List Nat) : Nat :=
  match gs.getLast? with
  | Option.none => 0
  | Option.some m => m + 1

theorem mem_insNat {a g : Nat} : ∀ {gs : List Nat}, a ∈ insNat g gs ↔ a = g ∨ a ∈ gs := by
  intro gs
  induction gs with
  | nil => simp [insNat]
  | cons x xs ih =>
    by_cases hx : x ≤ g
    · simp only [insNat, if_pos hx, List.mem_cons, ih]
      tauto
    · simp only [insNat, if_neg hx, List.mem_cons]

theorem insNat_pairwise {g : Nat} :
    ∀ {gs : List Nat}, List.Pairwise (· ≤ ·) gs → List.Pairwise (· ≤ ·) (insNat g gs) := by
  intro gs
  induction gs with
  | nil => intro _; simp [insNat]
  | cons x xs ih =>
    intro hp
    rw [List.pairwise_cons] at hp
    by_cases hx : x ≤ g
    · rw [insNat, if_pos hx, List.pairwise_cons]
      refine ⟨?_, ih hp.2⟩
      intro a ha
      rcases mem_insNat.mp ha with h | h
      · omega
      · exact hp.1 a h
    · rw [insNat, if_neg hx, List.pairwise_cons]
      refine ⟨?_, List.pairwise_cons.mpr hp⟩
      intro a ha
      rcases List.mem_cons.mp ha with h | h
      · omega
      · have := hp.1 a h
        omega

theorem sizeg_cons_of_ne {x : Nat} {xs : List Nat} (h : xs ≠ []) :
    sizeg (x :: xs) = sizeg xs := by
  cases xs with
  | nil => exact absurd rfl h
  | cons y ys => simp [sizeg, List.getLast?_cons_cons]

theorem sizeg_insNat_le (g : Nat) :
    ∀ (gs : List Nat), sizeg (insNat g gs) ≤ max (sizeg gs) (g + 1) := by
  intro gs
  induction gs with
  | nil => simp [insNat, sizeg]
  | cons x xs ih =>
    by_cases hx : x ≤ g
    · rw [insNat, if_pos hx]
      have hne : insNat g xs ≠ [] := by
        cases xs with
        | nil => simp [insNat]
        | cons y ys =>
          by_cases hy : y ≤ g <;> simp [insNat, hy]
      rw [sizeg_cons_of_ne hne]
      cases xs with
      | nil =>
        simp [insNat, sizeg, List.getLast?_singleton]
      | cons y ys =>
        have : sizeg (x :: y :: ys) = sizeg (y :: ys) := sizeg_cons_of_ne (by simp)
        omega
    · rw [insNat, if_neg hx, sizeg_cons_of_ne (by simp)]
      omega

theorem groupsOf_insert (g : Nat) (t : Tracker) :
    ∀ (l : List Tracker), groupsOf (TrackerList.insert g t l) = insNat g (groupsOf l) := by
  intro l
  induction l with
  | nil => rfl
  | cons x xs ih =>
    by_cases hx : x.group ≤ g
    · rw [TrackerList.insert, if_pos hx]
      simp only [groupsOf, List.map_cons] at ih ⊢
      rw [ih]
      rw [insNat, if_pos hx]
    · rw [TrackerList.insert, if_neg hx]
      simp only [groupsOf, List.map_cons]
      rw [insNat, if_neg hx]

theorem set_getD_id {α : Type} : ∀ (l : List α) (k : Nat) (d : α),
    l.set k (l.getD k d) = l := by
  intro l
  induction l with
  | nil => intro k d; rfl
  | cons x xs ih =>
    intro k d
    cases k with
    | zero => rfl
    | succ k' => simp only [List.getD_cons_succ, List.set_cons_succ, ih]

theorem groupsOf_getD : ∀ (l : List Tracker) (k : Nat),
    (groupsOf l).getD k 0 = (l.getD k default).group := by
  intro l
  induction l with
  | nil => intro k; rfl
  | cons x xs ih =>
    intro k
    cases k with
    | zero => rfl
    | succ k' => simpa [groupsOf] using ih k'

theorem groupsOf_set (l : List Tracker) (k : Nat) (t : Tracker) :
    groupsOf (l.set k t) = (groupsOf l).set k t.group :=
  List.map_set

theorem groupsOf_listSwap_eq {l : List Tracker} {i j : Nat}
    (hg : (l.getD i default).group = (l.getD j default).group) :
    groupsOf (listSwap l i j) = groupsOf l := by
  unfold listSwap
  rw [groupsOf_set, groupsOf_set]
  rw [show (l.getD j default).group = (groupsOf l).getD j 0 from (groupsOf_getD l j).symm]
  rw [show (l.getD i default).group = (groupsOf l).getD i 0 from (groupsOf_getD l i).symm]
  have hij : (groupsOf l).getD i 0 = (groupsOf l).getD j 0 := by
    rw [groupsOf_getD, groupsOf_getD, hg]
  rw [← hij, set_getD_id, hij, set_getD_id]

theorem takeWhile_boundary {α : Type} (p : α → Bool) (d : α) :
    ∀ (l : List α), (l.takeWhile p).length < l.length →
      p (l.getD (l.takeWhile p).length d) = false := by
  intro l
  induction l with
  | nil => intro h; simp at h
  | cons x xs ih =>
    intro h
    by_cases hx : p x = true
    · rw [List.takeWhile_cons, if_pos hx] at h ⊢
      simp only [List.length_cons, List.getD_cons_succ]
      exact ih (by simpa using h)
    · rw [List.takeWhile_cons, if_neg hx] at h ⊢
      simp only [List.length_nil, List.getD_cons_zero]
      exact Bool.eq_false_iff.mpr hx

theorem pairwise_le_getD {gs : List Nat} (h : List.Pairwise (· ≤ ·) gs) :
    ∀ i j, i < j → j < gs.length → gs.getD i 0 ≤ gs.getD j 0 := by
  induction gs with
  | nil => intro i j _ hj; simp at hj
  | cons x xs ih =>
    intro i j hij hj
    rw [List.pairwise_cons] at h
    cases i with
    | zero =>
      cases j with
      | zero => omega
      | succ j2 =>
        rw [List.getD_cons_zero, List.getD_cons_succ]
        have hj2 : j2 < xs.length := by simpa using hj
        rw [List.getD_eq_getElem xs 0 hj2]
        exact h.1 _ (List.getElem_mem hj2)
    | succ i2 =>
      cases j with
      | zero => omega
      | succ j2 =>
        rw [List.getD_cons_succ, List.getD_cons_succ]
        exact ih h.2 i2 j2 (by omega) (by simpa using hj)

theorem groupsOf_cycle (g : Nat) (l : List Tracker) :
    groupsOf (TrackerList.cycle_group g l) = groupsOf l := by
  simp only [TrackerList.cycle_group]
  cases hdrop : l.dropWhile (fun e => decide (e.group < g)) with
  | nil => rfl
  | cons x xs =>
    by_cases hxg : x.group = g
    · rw [cycleRun, if_neg (by simpa using hxg)]
      have hl : List.takeWhile (fun e => decide (e.group < g)) l ++ x :: xs = l := by
        rw [← hdrop]
        exact List.takeWhile_append_dropWhile _ _
      have hxs : xs.takeWhile (fun e => decide (e.group = g))
          ++ xs.dropWhile (fun e => decide (e.group = g)) = xs :=
        List.takeWhile_append_dropWhile _ _
      have htw : List.map Tracker.group (xs.takeWhile (fun e => decide (e.group = g)))
          = List.replicate (xs.takeWhile (fun e => decide (e.group = g))).length g := by
        rw [List.eq_replicate_iff]
        refine ⟨by simp, ?_⟩
        intro b hb
        obtain ⟨e, he, hbe⟩ := List.mem_map.mp hb
        have := List.mem_takeWhile_imp he
        rw [← hbe]
        exact of_decide_eq_true this
      conv_rhs => rw [← hl]
      conv_rhs => rw [← hxs]
      simp only [groupsOf, List.map_append, List.map_cons, List.map_nil, htw, hxg]
      rw [show List.replicate (xs.takeWhile (fun e => decide (e.group = g))).length g ++ [g]
          = g :: List.replicate (xs.takeWhile (fun e => decide (e.group = g))).length g by
        rw [← List.replicate_succ', List.replicate_succ]]
      simp [List.append_assoc]
    · rw [cycleRun, if_pos hxg]

theorem promote_preserved {l : List Tracker} {i j : Nat} {l2 : List Tracker}
    (hsorted : List.Pairwise (· ≤ ·) (groupsOf l)) (hi : i < l.length)
    (hpr : TrackerList.promote i l = Option.some (j, l2)) :
    groupsOf l2 = groupsOf l ∧ j ≤ i ∧ j < l.length ∧
      (l.getD j default).group = (l.getD i default).group ∧
      l2 = listSwap l i j := by
  set g := (l.getD i default).group with hg
  have hji : TrackerList.begin_group_idx g l ≤ i :=
    takeWhile_length_le_of_not _ default l i hi (by simp [hg])
  have hjlt : TrackerList.begin_group_idx g l < l.length := Nat.lt_of_le_of_lt hji hi
  have hpr' : TrackerList.promote i l
      = Option.some (TrackerList.begin_group_idx g l,
          listSwap l i (TrackerList.begin_group_idx g l)) := by
    simp only [TrackerList.promote]
    rw [← hg, if_neg (Nat.ne_of_lt hjlt)]
  rw [hpr'] at hpr
  have hinj := Option.some.inj hpr
  have hjeq : TrackerList.begin_group_idx g l = j := congrArg Prod.fst hinj
  have hleq : listSwap l i (TrackerList.begin_group_idx g l) = l2 := congrArg Prod.snd hinj
  subst hjeq
  subst hleq
  have hnotlt : ¬ ((l.getD (TrackerList.begin_group_idx g l) default).group < g) := by
    have hb := takeWhile_boundary (fun e => decide (e.group < g)) default l
      (by rw [show (List.takeWhile (fun e => decide (e.group < g)) l).length
          = TrackerList.begin_group_idx g l from rfl]; exact hjlt)
    rw [show (List.takeWhile (fun e => decide (e.group < g)) l).length
        = TrackerList.begin_group_idx g l from rfl] at hb
    simpa using hb
  have hle : (l.getD (TrackerList.begin_group_idx g l) default).group ≤ g := by
    rcases Nat.lt_or_ge (TrackerList.begin_group_idx g l) i with hlt | hge
    · have hlen : (groupsOf l).length = l.length := by simp [groupsOf]
      have hp := pairwise_le_getD hsorted
        (TrackerList.begin_group_idx g l) i hlt (by omega)
      rw [groupsOf_getD, groupsOf_getD] at hp
      exact hp
    · have heq : TrackerList.begin_group_idx g l = i := by omega
      rw [heq]
  have hgeq : (l.getD (TrackerList.begin_group_idx g l) default).group
      = (l.getD i default).group := by omega
  exact ⟨groupsOf_listSwap_eq hgeq.symm, hji, hjlt, hgeq, rfl⟩

theorem receive_success_groups {now slot_ret : Nat} {addrs : List Nat} {tb : Nat}
    {l l2 : List Tracker} (hsorted : List.Pairwise (· ≤ ·) (groupsOf l))
    (h : TrackerList.receive_success now slot_ret addrs tb l = Option.some l2) :
    groupsOf l2 = groupsOf l := by
  cases hfind : l.findIdx? (fun t => t.tid = tb) with
  | none => simp [TrackerList.receive_success, hfind] at h
  | some i =>
    have hi : i < l.length := findIdx?_some_lt default hfind
    by_cases hbusy : (l.getD i default).is_busy = true
    · simp only [TrackerList.receive_success, hfind] at h
      rw [if_pos hbusy] at h
      cases h
    · cases hprm : TrackerList.promote i l with
      | none =>
        simp only [TrackerList.receive_success, hfind] at h
        rw [if_neg hbusy, hprm] at h
        cases h
      | some pr =>
        obtain ⟨j, lsw⟩ := pr
        obtain ⟨hgroups, hji, hjlt, hgeq, hswap⟩ := promote_preserved hsorted hi hprm
        simp only [TrackerList.receive_success, hfind] at h
        rw [if_neg hbusy, hprm] at h
        have hl2 : l2 = lsw.set j
            { lsw.getD j default with
              success_time_last := now
              success_counter := ((lsw.getD j default).success_counter + 1) % u32
              failed_counter := 0
              latest_sum_peers := (uniqConsec (sortAddrs addrs)).length
              latest_new_peers := slot_ret } := (Option.some.inj h).symm

        rw [hl2, groupsOf_set]
        have : ({ lsw.getD j default with
              success_time_last := now
              success_counter := ((lsw.getD j default).success_counter + 1) % u32
              failed_counter := 0
              latest_sum_peers := (uniqConsec (sortAddrs addrs)).length
              latest_new_peers := slot_ret } : Tracker).group
            = (groupsOf lsw).getD j 0 := by
          rw [groupsOf_getD]
        rw [this, set_getD_id, hgroups]

/-- The tracker lists reachable through the public mutating operations
of `TrackerList` (tracker_list.cc): created empty; `insert` (and
`insert_url`, which parses the scheme and then either calls `insert`
with the same group or rejects the URL, leaving the list unchanged);
`promote` at a valid position; `cycle_group`; `randomize_group_entries`,
whose `std::shuffle` of each group run yields a permutation of the list
leaving the sequence of group numbers unchanged; and `receive_success`
(whose promotion and field update are the only list mutations among the
four receive paths — `receive_failed` and the scrape paths only update
fields in place, which leaves the group sequence unchanged as well). -/
inductive Reachable : List Tracker → Prop where
  | empty : Reachable []
  | insert_op (g : Nat) (t : Tracker) (l : List Tracker) :
      Reachable l → Reachable (TrackerList.insert g t l)
  | promote_op (i j : Nat) (l l2 : List Tracker) :
      Reachable l → i < l.length →
      TrackerList.promote i l = Option.some (j, l2) → Reachable l2
  | cycle_op (g : Nat) (l : List Tracker) :
      Reachable l → Reachable (TrackerList.cycle_group g l)
  | randomize_op (l l2 : List Tracker) :
      Reachable l → l.Perm l2 → groupsOf l2 = groupsOf l → Reachable l2
  | success_op (now slot_ret : Nat) (addrs : List Nat) (tb : Nat)
      (l l2 : List Tracker) :
      Reachable l →
      TrackerList.receive_success now slot_ret addrs tb l = Option.some l2 →
      Reachable l2

/-- `Reachable` restricted to insertions whose group argument is at most
the current `size_group()` — i.e. an existing group or the next fresh
one. -/
inductive ReachableC : List Tracker → Prop where
  | empty : ReachableC []
  | insert_op (g : Nat) (t : Tracker) (l : List Tracker) :
      g ≤ TrackerList.size_group l →
      ReachableC l → ReachableC (TrackerList.insert g t l)
  | promote_op (i j : Nat) (l l2 : List Tracker) :
      ReachableC l → i < l.length →
      TrackerList.promote i l = Option.some (j, l2) → ReachableC l2
  | cycle_op (g : Nat) (l : List Tracker) :
      ReachableC l → ReachableC (TrackerList.cycle_group g l)
  | randomize_op (l l2 : List Tracker) :
      ReachableC l → l.Perm l2 → groupsOf l2 = groupsOf l → ReachableC l2
  | success_op (now slot_ret : Nat) (addrs : List Nat) (tb : Nat)
      (l l2 : List Tracker) :
      ReachableC l →
      TrackerList.receive_success now slot_ret addrs tb l = Option.some l2 →
      ReachableC l2

theorem reachableC_reachable {l : List Tracker} (h : ReachableC l) : Reachable l := by
  induction h with
  | empty => exact Reachable.empty
  | insert_op g t l _ _ ih => exact Reachable.insert_op g t l ih
  | promote_op i j l l2 _ hi hpr ih => exact Reachable.promote_op i j l l2 ih hi hpr
  | cycle_op g l _ ih => exact Reachable.cycle_op g l ih
  | randomize_op l l2 _ hperm hgr ih => exact Reachable.randomize_op l l2 ih hperm hgr
  | success_op now sr addrs tb l l2 _ hrs ih =>
    exact Reachable.success_op now sr addrs tb l l2 ih hrs

theorem reachable_sorted {l : List Tracker} (h : Reachable l) :
    List.Pairwise (· ≤ ·) (groupsOf l) := by
  induction h with
  | empty => simp [groupsOf]
  | insert_op g t l _ ih =>
    rw [groupsOf_insert]
    exact insNat_pairwise ih
  | promote_op i j l l2 _ hi hpr ih =>
    rw [(promote_preserved ih hi hpr).1]
    exact ih
  | cycle_op g l _ ih =>
    rw [groupsOf_cycle]
    exact ih
  | randomize_op l l2 _ _ hgr ih =>
    rw [hgr]
    exact ih
  | success_op now sr addrs tb l l2 _ hrs ih =>
    rw [receive_success_groups ih hrs]
    exact ih

theorem size_group_eq (l : List Tracker) :
    TrackerList.size_group l = sizeg (groupsOf l) := by
  unfold TrackerList.size_group sizeg groupsOf
  rw [List.getLast?_map]
  cases l.getLast? with
  | none => rfl
  | some t => rfl

theorem reachableC_contiguous {l : List Tracker} (h : ReachableC l) :
    ∀ k, k < sizeg (groupsOf l) → k ∈ groupsOf l := by
  induction h with
  | empty => intro k hk; simp [groupsOf, sizeg] at hk
  | insert_op g t l hle _ ih =>
    intro k hk
    rw [groupsOf_insert] at hk ⊢
    have hmax := sizeg_insNat_le g (groupsOf l)
    rw [size_group_eq] at hle
    rcases Nat.lt_or_ge k (sizeg (groupsOf l)) with hlt | hge
    · exact mem_insNat.mpr (Or.inr (ih k hlt))
    · have hkg : k = g := by omega
      subst hkg
      exact mem_insNat.mpr (Or.inl rfl)
  | promote_op i j l l2 hR hi hpr ih =>
    intro k hk
    have hs := reachable_sorted (reachableC_reachable hR)
    rw [(promote_preserved hs hi hpr).1] at hk ⊢
    exact ih k hk
  | cycle_op g l _ ih =>
    intro k hk
    rw [groupsOf_cycle] at hk ⊢
    exact ih k hk
  | randomize_op l l2 _ _ hgr ih =>
    intro k hk
    rw [hgr] at hk ⊢
    exact ih k hk
  | success_op now sr addrs tb l l2 hR hrs ih =>
    intro k hk
    have hs := reachable_sorted (reachableC_reachable hR)
    rw [receive_success_groups hs hrs] at hk ⊢
    exact ih k hk

/-- **C4 (counterexample).** The group-contiguity half of the claim
fails: `insert` accepts an arbitrary group number, so inserting with
group 1 into an empty list is reachable and yields a list with
`size_group() = 2` in which no tracker has group 0 — the groups present
are not the contiguous range `0..G-1`. -/
theorem c4_counterexample :
    Reachable (TrackerList.insert 1 {} []) ∧
    TrackerList.size_group (TrackerList.insert 1 {} []) = 2 ∧
    ¬ ∃ t ∈ TrackerList.insert 1 {} [], t.group = 0 := by
  refine ⟨Reachable.insert_op 1 {} [] Reachable.empty, rfl, ?_⟩
  decide

/-- **C4 (amended).** For every tracker list reachable through the
public operations (`insert`, `insert_url`, `promote`, `cycle_group`,
`randomize_group_entries`, `receive_success`): for all positions
`i < j`, `L[i].group ≤ L[j].group`.  The groups present form the
contiguous range `0..G-1` with `G = size_group()` provided every
insertion in the history used a group number at most the list's
`size_group()` at that time (an existing group or the next fresh one);
an insertion with a larger group number creates a gap. -/
theorem c4_group_invariant :
    (∀ l, Reachable l → ∀ i j, i < j → j < l.length →
      (l.getD i default).group ≤ (l.getD j default).group) ∧
    (∀ l, ReachableC l → ∀ k, k < TrackerList.size_group l →
      ∃ t ∈ l, t.group = k) := by
  constructor
  · intro l h i j hij hj
    have hs := reachable_sorted h
    have hlen : (groupsOf l).length = l.length := by simp [groupsOf]
    have hp := pairwise_le_getD hs i j hij (by omega)
    rw [groupsOf_getD, groupsOf_getD] at hp
    exact hp
  · intro l h k hk
    rw [size_group_eq] at hk
    have hmem := reachableC_contiguous h k hk
    obtain ⟨t, ht, hgt⟩ := List.mem_map.mp hmem
    exact ⟨t, ht, hgt⟩

/-- Witness for C4 (amended) on the concrete reachable list built by
`insert 0` then `insert 1` (each group number at most the current
`size_group()`): the two entries are in group order, and group 0 is
present. -/
theorem c4_group_invariant_witness :
    ((TrackerList.insert 1 { tid := 8 }
        (TrackerList.insert 0 { tid := 7 } [])).getD 0 default).group
      ≤ ((TrackerList.insert 1 { tid := 8 }
        (TrackerList.insert 0 { tid := 7 } [])).getD 1 default).group ∧
    ∃ t ∈ TrackerList.insert 1 { tid := 8 } (TrackerList.insert 0 { tid := 7 } []),
      t.group = 0 := by
  have hr : Reachable
      (TrackerList.insert 1 { tid := 8 } (TrackerList.insert 0 { tid := 7 } [])) :=
    Reachable.insert_op 1 _ _ (Reachable.insert_op 0 _ _ Reachable.empty)
  have hrc : ReachableC
      (TrackerList.insert 1 { tid := 8 } (TrackerList.insert 0 { tid := 7 } [])) :=
    ReachableC.insert_op 1 _ _ (by decide)
      (ReachableC.insert_op 0 _ _ (by decide) ReachableC.empty)
  exact ⟨c4_group_invariant.1 _ hr 0 1 (by decide) (by decide),
    c4_group_invariant.2 _ hrc 0 (by decide)⟩

end LibTorrent
